import Mathlib

/-!
# ServiceQueue (src/Service-Queue/ServiceQueue.h)

A shallow embedding of the `ServiceQueue` class.  The two `std::vector<int>`
members are lists in vector order: index 0 of `the_queue` is the front of the
queue and the back (last element) of `buzzer_bucket` is the top of the stack of
reusable buzzers.  Every member function becomes a function from the state to
its return value paired with the next state.

`int` values are integers.  The class performs no arithmetic on them; the only
conversions are `int b = the_queue.size()` in `give_buzzer()` and the return of
`the_queue.size()` from `int length()`.  Both narrow a size to a 32-bit `int`,
which `int_of_size` models as reduction modulo `2^32` into `-2^31 .. 2^31 - 1`.
The contents of the vectors and the `int` arguments are integers without a
bound, a superset of the values the program can hold.
-/

namespace ServiceQueue

/-- The private members of the class: `the_queue` and `buzzer_bucket`. -/
structure State where
  the_queue : List Int
  buzzer_bucket : List Int
  deriving DecidableEq

/-- The default-constructed object: both vectors are empty. -/
def init : State := ⟨[], []⟩

/-- The conversion of a vector size to `int`: the value modulo `2^32` that lies
in `-2^31 .. 2^31 - 1` (the result C++20 prescribes and earlier compilers give
for an `int` of 32 bits). -/
def int_of_size (n : Nat) : Int :=
  if n % 4294967296 < 2147483648 then
    ((n % 4294967296 : Nat) : Int)
  else
    ((n % 4294967296 : Nat) : Int) - 4294967296

/-- Member `snapshot(buzzers)`: the argument is cleared and then overwritten by
a copy of `the_queue`; the object is not modified. -/
def snapshot (s : State) (_buzzers : List Int) : List Int × State :=
  (s.the_queue, s)

/-- Member `length()`: the size of `the_queue`, returned as an `int`. -/
def length (s : State) : Int × State :=
  (int_of_size s.the_queue.length, s)

/-- Member `give_buzzer()`: pops the back of `buzzer_bucket` when it is not
empty, otherwise takes `the_queue.size()` as an `int`; pushes the chosen buzzer
at the back of `the_queue` and returns it. -/
def give_buzzer (s : State) : Int × State :=
  if h : s.buzzer_bucket.length ≠ 0 then
    let b := s.buzzer_bucket.getLast (fun e => h (by rw [e]; rfl))
    (b, ⟨s.the_queue ++ [b], s.buzzer_bucket.dropLast⟩)
  else
    let b : Int := int_of_size s.the_queue.length
    (b, ⟨s.the_queue ++ [b], s.buzzer_bucket⟩)

/-- Member `seat()`: returns `-1` on an empty queue; otherwise erases the
element at index 0, pushes it on `buzzer_bucket` and returns it. -/
def seat (s : State) : Int × State :=
  if h : s.the_queue.length = 0 then
    (-1, s)
  else
    let buzzer := s.the_queue.get ⟨0, Nat.pos_of_ne_zero h⟩
    (buzzer, ⟨s.the_queue.drop 1, s.buzzer_bucket ++ [buzzer]⟩)

/-- Member `kick_out(buzzer)`: `find` gives the position of the first
occurrence (the size of the vector when there is none); a found entry is erased
and the buzzer is pushed on `buzzer_bucket`. -/
def kick_out (s : State) (buzzer : Int) : Bool × State :=
  let it := s.the_queue.indexOf buzzer
  if it = s.the_queue.length then
    (false, s)
  else
    (true, ⟨s.the_queue.eraseIdx it, s.buzzer_bucket ++ [buzzer]⟩)

/-- Member `take_bribe(buzzer)`: a found entry is erased and inserted again at
`begin()`; `buzzer_bucket` is not touched. -/
def take_bribe (s : State) (buzzer : Int) : Bool × State :=
  let it := s.the_queue.indexOf buzzer
  if it = s.the_queue.length then
    (false, s)
  else
    (true, ⟨(s.the_queue.eraseIdx it).insertIdx 0 buzzer, s.buzzer_bucket⟩)

/-- One call of a public member function. -/
inductive Op where
  | give_buzzer : Op
  | seat : Op
  | kick_out : Int → Op
  | take_bribe : Int → Op
  | length : Op
  | snapshot : Op
  deriving DecidableEq

/-- The state after one call. -/
def step (s : State) : Op → State
  | Op.give_buzzer => (give_buzzer s).2
  | Op.seat => (seat s).2
  | Op.kick_out b => (kick_out s b).2
  | Op.take_bribe b => (take_bribe s b).2
  | Op.length => (length s).2
  | Op.snapshot => (snapshot s []).2

/-- The state after a sequence of calls, first call first. -/
def run (s : State) (ops : List Op) : State :=
  ops.foldl step s

/-- States the object can be in: those produced from the default-constructed
object by some finite sequence of calls. -/
def Reachable (s : State) : Prop :=
  ∃ ops : List Op, run init ops = s

/-- The buzzers issued so far, as a list: `0, 1, ..., n-1`. -/
def issued (n : Nat) : List Int :=
  (List.range n).map (fun k : Nat => (k : Int))

/-- The representation invariant of the two vectors: together they hold every
buzzer `0 .. M-1` exactly once, where `M` is the sum of their sizes. -/
def Inv (s : State) : Prop :=
  (s.the_queue ++ s.buzzer_bucket).Perm
    (issued (s.the_queue.length + s.buzzer_bucket.length))

/-- A call that retires buzzer `t` in state `s`: a `seat()` on a non-empty queue
that returns `t`, or a `kick_out(t)` that returns true. -/
def retires (s : State) (t : Int) : Op → Bool
  | Op.seat => decide (s.the_queue ≠ [] ∧ (seat s).1 = t)
  | Op.kick_out b => decide (b = t ∧ (kick_out s b).1 = true)
  | _ => false

/-- A call that is neither a `give_buzzer()` nor a retirement in state `s`: any
`take_bribe`, a `seat()` on an empty queue, a `kick_out` that returns false, and
the two observers. -/
def quiet (s : State) : Op → Bool
  | Op.give_buzzer => false
  | Op.seat => decide (s.the_queue = [])
  | Op.kick_out b => !(kick_out s b).1
  | Op.take_bribe _ => true
  | Op.length => true
  | Op.snapshot => true

/-- Every call of the sequence is quiet in the state it is made in. -/
def quietRun (s : State) : List Op → Bool
  | [] => true
  | op :: ops => quiet s op && quietRun (step s op) ops

/-- The caller's loop of `k` consecutive `give_buzzer()` calls: the buzzers
returned, in call order, and the state after the last call. -/
def give_buzzers : Nat → State → List Int × State
  | 0, s => ([], s)
  | k + 1, s =>
    ((give_buzzer s).1 :: (give_buzzers k (give_buzzer s).2).1,
      (give_buzzers k (give_buzzer s).2).2)

/-- The caller's loop of `n` consecutive `seat()` calls: the values returned, in
call order, and the state after the last call. -/
def seats : Nat → State → List Int × State
  | 0, s => ([], s)
  | n + 1, s =>
    ((seat s).1 :: (seats n (seat s).2).1, (seats n (seat s).2).2)

/-- The number of buzzers held by the two vectors together. -/
def total (s : State) : Nat :=
  s.the_queue.length + s.buzzer_bucket.length

/-- The largest queue length among the states of a run: the state the run starts
in, every state in between and the state it ends in. -/
def peak (s : State) : List Op → Nat
  | [] => s.the_queue.length
  | op :: ops => max s.the_queue.length (peak (step s op) ops)

/-- The buzzer a call hands out: the return value of a `give_buzzer()`, nothing
for any other call. -/
def given (s : State) : Op → List Int
  | Op.give_buzzer => [(give_buzzer s).1]
  | _ => []

/-- The buzzers returned by the `give_buzzer()` calls of a run, in call order. -/
def returned (s : State) : List Op → List Int
  | [] => []
  | op :: ops => given s op ++ returned (step s op) ops

/-- The queue that `n` consecutive `give_buzzer()` calls build from the
default-constructed object: entry `k` is the size `k` converted to `int`. -/
def handed (n : Nat) : List Int :=
  (List.range n).map int_of_size

/-! ## The member functions in closed form -/

theorem give_buzzer_reuse (q rest : List Int) (t : Int) :
    give_buzzer ⟨q, rest ++ [t]⟩ = (t, ⟨q ++ [t], rest⟩) := by
  simp [give_buzzer]

theorem give_buzzer_new (q : List Int) :
    give_buzzer ⟨q, []⟩
      = (int_of_size q.length, ⟨q ++ [int_of_size q.length], []⟩) := by
  simp [give_buzzer]

theorem give_buzzer_queue (s : State) :
    (give_buzzer s).2.the_queue = s.the_queue ++ [(give_buzzer s).1] := by
  unfold give_buzzer
  split <;> rfl

theorem seat_empty (p : List Int) : seat ⟨[], p⟩ = (-1, ⟨[], p⟩) := by
  simp [seat]

theorem seat_front (x : Int) (rest p : List Int) :
    seat ⟨x :: rest, p⟩ = (x, ⟨rest, p ++ [x]⟩) := by
  simp [seat]

theorem kick_out_absent (s : State) (x : Int) (hx : x ∉ s.the_queue) :
    kick_out s x = (false, s) := by
  simp [kick_out, List.indexOf_eq_length.mpr hx]

theorem kick_out_present (s : State) (t : Int) (ht : t ∈ s.the_queue) :
    kick_out s t = (true, ⟨s.the_queue.erase t, s.buzzer_bucket ++ [t]⟩) := by
  have hne : List.indexOf t s.the_queue ≠ s.the_queue.length :=
    fun e => List.indexOf_eq_length.mp e ht
  simp [kick_out, hne]

theorem take_bribe_absent (s : State) (x : Int) (hx : x ∉ s.the_queue) :
    take_bribe s x = (false, s) := by
  simp [take_bribe, List.indexOf_eq_length.mpr hx]

theorem take_bribe_present (s : State) (t : Int) (ht : t ∈ s.the_queue) :
    take_bribe s t = (true, ⟨t :: s.the_queue.erase t, s.buzzer_bucket⟩) := by
  have hne : List.indexOf t s.the_queue ≠ s.the_queue.length :=
    fun e => List.indexOf_eq_length.mp e ht
  simp [take_bribe, hne, List.insertIdx_zero]

/-! ## Calls that leave the bucket alone, and calls that retire a buzzer -/

theorem quiet_bucket (s : State) (op : Op) (h : quiet s op = true) :
    (step s op).buzzer_bucket = s.buzzer_bucket := by
  obtain ⟨q, p⟩ := s
  cases op with
  | give_buzzer => simp [quiet] at h
  | seat =>
    simp only [quiet, decide_eq_true_eq] at h
    subst h
    simp [step, seat_empty]
  | kick_out b =>
    by_cases hb : b ∈ q
    · simp [quiet, kick_out_present ⟨q, p⟩ b hb] at h
    · simp [step, kick_out_absent ⟨q, p⟩ b hb]
  | take_bribe b =>
    by_cases hb : b ∈ q
    · simp [step, take_bribe_present ⟨q, p⟩ b hb]
    · simp [step, take_bribe_absent ⟨q, p⟩ b hb]
  | length => rfl
  | snapshot => rfl

theorem quietRun_bucket (ops : List Op) :
    ∀ s : State, quietRun s ops = true → (run s ops).buzzer_bucket = s.buzzer_bucket := by
  induction ops with
  | nil => intro s _; rfl
  | cons op ops ih =>
    intro s h
    simp only [quietRun, Bool.and_eq_true] at h
    show (run (step s op) ops).buzzer_bucket = s.buzzer_bucket
    rw [ih (step s op) h.2, quiet_bucket s op h.1]

theorem retires_bucket (s : State) (t : Int) (op : Op) (h : retires s t op = true) :
    (step s op).buzzer_bucket = s.buzzer_bucket ++ [t] := by
  obtain ⟨q, p⟩ := s
  cases op with
  | give_buzzer => simp [retires] at h
  | seat =>
    cases q with
    | nil => simp [retires] at h
    | cons x rest =>
      simp only [retires, seat_front, decide_eq_true_eq] at h
      simp [step, seat_front, h.2]
  | kick_out b =>
    simp only [retires, decide_eq_true_eq] at h
    obtain ⟨rfl, hk⟩ := h
    by_cases hb : b ∈ q
    · simp [step, kick_out_present ⟨q, p⟩ b hb]
    · simp [kick_out_absent ⟨q, p⟩ b hb] at hk
  | take_bribe b => simp [retires] at h
  | length => simp [retires] at h
  | snapshot => simp [retires] at h

theorem give_buzzer_of_top (s : State) (rest : List Int) (t : Int)
    (h : s.buzzer_bucket = rest ++ [t]) :
    give_buzzer s = (t, ⟨s.the_queue ++ [t], rest⟩) := by
  obtain ⟨q, p⟩ := s
  simp only at h
  subst h
  exact give_buzzer_reuse q rest t

/-! ## The claims -/

/-- C2: recency reuse.  From any state `s`, let call `r1` retire `t1`, let any
quiet calls `n1` follow (bribes, failed `seat`/`kick_out`, observers), let call
`r2` retire `t2`, and let quiet calls `n2` follow.  Then the next
`give_buzzer()` returns `t2` and the one after it returns `t1`. -/
theorem recency_reuse (s : State) (t1 t2 : Int) (r1 r2 : Op) (n1 n2 : List Op)
    (h1 : retires s t1 r1 = true)
    (hn1 : quietRun (step s r1) n1 = true)
    (h2 : retires (run (step s r1) n1) t2 r2 = true)
    (hn2 : quietRun (step (run (step s r1) n1) r2) n2 = true) :
    (give_buzzer (run (step (run (step s r1) n1) r2) n2)).1 = t2 ∧
    (give_buzzer (give_buzzer (run (step (run (step s r1) n1) r2) n2)).2).1 = t1 := by
  have hb : (run (step (run (step s r1) n1) r2) n2).buzzer_bucket
      = (s.buzzer_bucket ++ [t1]) ++ [t2] := by
    rw [quietRun_bucket n2 _ hn2, retires_bucket _ t2 r2 h2, quietRun_bucket n1 _ hn1,
      retires_bucket s t1 r1 h1]
  have e1 := give_buzzer_of_top _ _ t2 hb
  rw [e1]
  exact ⟨rfl, by rw [give_buzzer_reuse]⟩

/-- Witness of C2: from queue `[0,1,2,3]`, `seat()` retires 0, a bribe for 3 and a
failed `kick_out(9)` follow, `kick_out(2)` retires 2, a `seat()` is not possible
so a bribe for 1 follows; the next two `give_buzzer()` calls return 2 and 0. -/
theorem recency_reuse_witness :
    (give_buzzer (run (step (run (step ⟨[0, 1, 2, 3], []⟩ Op.seat)
        [Op.take_bribe 3, Op.kick_out 9]) (Op.kick_out 2)) [Op.take_bribe 1])).1 = 2 ∧
    (give_buzzer (give_buzzer (run (step (run (step ⟨[0, 1, 2, 3], []⟩ Op.seat)
        [Op.take_bribe 3, Op.kick_out 9]) (Op.kick_out 2)) [Op.take_bribe 1])).2).1 = 0 :=
  recency_reuse ⟨[0, 1, 2, 3], []⟩ 0 2 Op.seat (Op.kick_out 2)
    [Op.take_bribe 3, Op.kick_out 9] [Op.take_bribe 1]
    (by decide) (by decide) (by decide) (by decide)

/-- C6: `seat()` on a non-empty queue `x :: rest` with bucket `p` returns `x`
and leaves queue `rest` (the other entries, in their order) and bucket `p` with
`x` pushed on top. -/
theorem seat_contract (x : Int) (rest p : List Int) :
    seat ⟨x :: rest, p⟩ = (x, ⟨rest, p ++ [x]⟩) ∧
    (seat ⟨x :: rest, p⟩).2.the_queue.Sublist (x :: rest) := by
  rw [seat_front]
  exact ⟨rfl, List.sublist_cons_self x rest⟩

/-- C7: `seat()` on an empty queue returns `-1` and leaves queue and bucket as
they were, whatever the bucket holds. -/
theorem seat_empty_contract (p : List Int) :
    seat ⟨[], p⟩ = (-1, ⟨[], p⟩) :=
  seat_empty p

/-- C10: for every state and every integer `x` that is not in the queue,
`kick_out(x)` and `take_bribe(x)` return false and leave queue and bucket as
they were. -/
theorem absent_token_failure (s : State) (x : Int) (hx : x ∉ s.the_queue) :
    kick_out s x = (false, s) ∧ take_bribe s x = (false, s) :=
  ⟨kick_out_absent s x hx, take_bribe_absent s x hx⟩

/-- Witness of C10: buzzer 1 is in the bucket and not in the queue `[0,2]`. -/
theorem absent_token_failure_witness :
    (1 : Int) ∉ [0, 2] ∧
    (kick_out ⟨[0, 2], [1]⟩ 1 = (false, ⟨[0, 2], [1]⟩) ∧
      take_bribe ⟨[0, 2], [1]⟩ 1 = (false, ⟨[0, 2], [1]⟩)) :=
  ⟨by decide, absent_token_failure ⟨[0, 2], [1]⟩ 1 (by decide)⟩

/-! ## Loops of calls -/

theorem give_buzzers_queue (k : Nat) :
    ∀ s : State, (give_buzzers k s).2.the_queue = s.the_queue ++ (give_buzzers k s).1 := by
  induction k with
  | zero => intro s; simp [give_buzzers]
  | succ k ih =>
    intro s
    simp only [give_buzzers]
    rw [ih, give_buzzer_queue, List.append_assoc]
    rfl

theorem give_buzzers_length (k : Nat) :
    ∀ s : State, (give_buzzers k s).1.length = k := by
  induction k with
  | zero => intro s; rfl
  | succ k ih => intro s; simp [give_buzzers, ih]

theorem seats_all (l : List Int) :
    ∀ p : List Int, seats l.length ⟨l, p⟩ = (l, ⟨[], p ++ l⟩) := by
  induction l with
  | nil => intro p; simp [seats]
  | cons x rest ih =>
    intro p
    simp only [List.length_cons, seats, seat_front, ih]
    simp

/-- C11: FIFO order.  From any state with queue `q`, after `k` consecutive
`give_buzzer()` calls returning `a1, ..., ak`, the next `|q| + k` calls of
`seat()` return the entries of `q` front to back followed by `a1, ..., ak`; from
the default-constructed object the `k` calls of `seat()` return exactly the
buzzers handed out, in the order they were handed out. -/
theorem fifo_order (s : State) (k : Nat) :
    (seats (s.the_queue.length + k) (give_buzzers k s).2).1
      = s.the_queue ++ (give_buzzers k s).1 ∧
    (seats k (give_buzzers k init).2).1 = (give_buzzers k init).1 := by
  have key : ∀ s : State, (seats (s.the_queue.length + k) (give_buzzers k s).2).1
      = s.the_queue ++ (give_buzzers k s).1 := by
    intro s
    have hq := give_buzzers_queue k s
    have hl : s.the_queue.length + k = (give_buzzers k s).2.the_queue.length := by
      rw [hq, List.length_append, give_buzzers_length]
    rw [hl]
    have := seats_all (give_buzzers k s).2.the_queue (give_buzzers k s).2.buzzer_bucket
    rw [this, hq]
  refine ⟨key s, ?_⟩
  have := key init
  simpa [init] using this

/-- C18, as the claim states it, fails: in the reachable state with queue
`[0,1,2]`, buzzer 1 is in the queue before `kick_out(1)` and not after it, and
`kick_out(1)` is not a `seat()`. -/
theorem only_seat_leaves_counterexample :
    Reachable ⟨[0, 1, 2], []⟩ ∧
    (1 : Int) ∈ (State.mk [0, 1, 2] []).the_queue ∧
    (1 : Int) ∉ (step ⟨[0, 1, 2], []⟩ (Op.kick_out 1)).the_queue ∧
    Op.kick_out 1 ≠ Op.seat :=
  ⟨⟨[Op.give_buzzer, Op.give_buzzer, Op.give_buzzer], by decide⟩,
    by decide, by decide, by decide⟩

/-- C18, amended: in every state (so in every reachable one), if buzzer `t` is in
the queue before a call and not in the queue after it, then the call is a
`seat()` that returns `t` or a `kick_out(t)` that returns true. -/
theorem leaves_queue_by_seat_or_kick_out (s : State) (op : Op) (t : Int)
    (hin : t ∈ s.the_queue) (hout : t ∉ (step s op).the_queue) :
    (op = Op.seat ∧ (seat s).1 = t) ∨
    (op = Op.kick_out t ∧ (kick_out s t).1 = true) := by
  obtain ⟨q, p⟩ := s
  simp only at hin
  cases op with
  | give_buzzer =>
    exfalso
    apply hout
    simp only [step, give_buzzer_queue]
    exact List.mem_append_left _ hin
  | seat =>
    left
    cases q with
    | nil => simp at hin
    | cons x rest =>
      simp only [step, seat_front] at hout ⊢
      rcases List.mem_cons.mp hin with h | h
      · exact ⟨trivial, h.symm⟩
      · exact absurd h hout
  | kick_out b =>
    right
    by_cases hb : b ∈ q
    · simp only [step, kick_out_present ⟨q, p⟩ b hb] at hout
      have hbt : t = b := by
        by_contra hne
        exact hout ((List.mem_erase_of_ne hne).mpr hin)
      subst hbt
      exact ⟨rfl, by rw [kick_out_present ⟨q, p⟩ t hin]⟩
    · simp only [step, kick_out_absent ⟨q, p⟩ b hb] at hout
      exact absurd hin hout
  | take_bribe b =>
    exfalso
    by_cases hb : b ∈ q
    · simp only [step, take_bribe_present ⟨q, p⟩ b hb] at hout
      apply hout
      by_cases hne : t = b
      · simp [hne]
      · exact List.mem_cons_of_mem _ ((List.mem_erase_of_ne hne).mpr hin)
    · simp only [step, take_bribe_absent ⟨q, p⟩ b hb] at hout
      exact hout hin
  | length => exact absurd hin hout
  | snapshot => exact absurd hin hout

/-- Witness of amended C18: `kick_out(1)` on queue `[0,1,2]`. -/
theorem leaves_queue_by_seat_or_kick_out_witness :
    (1 : Int) ∈ (State.mk [0, 1, 2] []).the_queue ∧
    (1 : Int) ∉ (step ⟨[0, 1, 2], []⟩ (Op.kick_out 1)).the_queue ∧
    ((Op.kick_out 1 = Op.seat ∧ (seat ⟨[0, 1, 2], []⟩).1 = 1) ∨
      (Op.kick_out 1 = Op.kick_out 1 ∧ (kick_out ⟨[0, 1, 2], []⟩ 1).1 = true)) :=
  ⟨by decide, by decide,
    leaves_queue_by_seat_or_kick_out ⟨[0, 1, 2], []⟩ (Op.kick_out 1) 1
      (by decide) (by decide)⟩

/-- C20: bribe then seat equals kick out.  In every state whose queue holds `t`
(so in every reachable one), `take_bribe(t)` returns true, the `seat()` that
follows returns `t`, and the state after the two calls is the state that a
single `kick_out(t)`, which returns true, leaves. -/
theorem bribe_then_seat_eq_kick_out (s : State) (t : Int) (ht : t ∈ s.the_queue) :
    (take_bribe s t).1 = true ∧
    (seat (take_bribe s t).2).1 = t ∧
    (seat (take_bribe s t).2).2 = (kick_out s t).2 ∧
    (kick_out s t).1 = true := by
  rw [take_bribe_present s t ht, kick_out_present s t ht, seat_front]
  exact ⟨rfl, rfl, rfl, rfl⟩

/-- Witness of C20: buzzer 2 in the reachable state with queue `[0,1,2]`. -/
theorem bribe_then_seat_eq_kick_out_witness :
    (2 : Int) ∈ (State.mk [0, 1, 2] []).the_queue ∧
    ((take_bribe ⟨[0, 1, 2], []⟩ 2).1 = true ∧
      (seat (take_bribe ⟨[0, 1, 2], []⟩ 2).2).1 = 2 ∧
      (seat (take_bribe ⟨[0, 1, 2], []⟩ 2).2).2 = (kick_out ⟨[0, 1, 2], []⟩ 2).2 ∧
      (kick_out ⟨[0, 1, 2], []⟩ 2).1 = true) :=
  ⟨by decide, bribe_then_seat_eq_kick_out ⟨[0, 1, 2], []⟩ 2 (by decide)⟩

/-! ## Below the range of `int`: the invariant of the two vectors -/

theorem int_of_size_of_lt (n : Nat) (h : n < 2147483648) : int_of_size n = (n : Int) := by
  have h1 : n % 4294967296 = n := Nat.mod_eq_of_lt (by omega)
  simp [int_of_size, h1, h]

theorem issued_succ (n : Nat) : issued (n + 1) = issued n ++ [(n : Int)] := by
  simp [issued, List.range_succ]

theorem issued_nodup (n : Nat) : (issued n).Nodup := by
  unfold issued
  exact (List.nodup_range n).map (fun a b h => Int.ofNat.inj h)

theorem mem_issued (n : Nat) (x : Int) : x ∈ issued n ↔ 0 ≤ x ∧ x < n := by
  unfold issued
  constructor
  · intro h
    obtain ⟨k, hk, rfl⟩ := List.mem_map.mp h
    have := List.mem_range.mp hk
    constructor
    · exact Int.ofNat_nonneg k
    · exact Int.ofNat_lt.mpr this
  · rintro ⟨h0, h1⟩
    refine List.mem_map.mpr ⟨x.toNat, List.mem_range.mpr ?_, ?_⟩
    · omega
    · simp [Int.toNat_of_nonneg h0]

theorem inv_init : Inv init := by
  simp [Inv, init, issued]

theorem inv_give_buzzer (s : State) (h : Inv s)
    (hb : total (give_buzzer s).2 ≤ 2147483648) : Inv (give_buzzer s).2 := by
  obtain ⟨q, p⟩ := s
  rcases List.eq_nil_or_concat p with rfl | ⟨rest, t, rfl⟩
  · rw [give_buzzer_new] at hb ⊢
    simp only [total, List.length_append, List.length_singleton, List.length_nil,
      Nat.add_zero] at hb
    rw [int_of_size_of_lt q.length (by omega)]
    simp only [Inv, List.append_nil, List.length_append, List.length_singleton,
      List.length_nil, Nat.add_zero] at h ⊢
    rw [issued_succ]
    exact List.Perm.append_right _ h
  · rw [List.concat_eq_append] at h ⊢
    rw [give_buzzer_reuse]
    simp only [Inv, List.length_append, List.length_singleton] at h ⊢
    have e : q.length + 1 + rest.length = q.length + (rest.length + 1) := by omega
    rw [e]
    refine List.Perm.trans ?_ h
    rw [List.append_assoc]
    exact List.Perm.append_left q List.perm_append_comm

theorem inv_seat (s : State) (h : Inv s) : Inv (seat s).2 := by
  obtain ⟨q, p⟩ := s
  cases q with
  | nil => rw [seat_empty]; exact h
  | cons x rest =>
    rw [seat_front]
    simp only [Inv, List.length_append, List.length_cons, List.length_nil] at h ⊢
    have e : rest.length + (p.length + (0 + 1)) = rest.length + 1 + p.length := by omega
    rw [e]
    refine List.Perm.trans ?_ h
    rw [← List.append_assoc]
    exact List.perm_append_singleton x (rest ++ p)

theorem inv_kick_out (s : State) (b : Int) (h : Inv s) : Inv (kick_out s b).2 := by
  by_cases hb : b ∈ s.the_queue
  · rw [kick_out_present s b hb]
    simp only [Inv, List.length_append, List.length_singleton] at h ⊢
    have hl : (s.the_queue.erase b).length + 1 = s.the_queue.length := by
      rw [List.length_erase_of_mem hb]
      have := List.length_pos_of_mem hb
      omega
    have e : (s.the_queue.erase b).length + (s.buzzer_bucket.length + 1)
        = s.the_queue.length + s.buzzer_bucket.length := by omega
    rw [e]
    refine List.Perm.trans ?_ h
    have h1 : (s.the_queue.erase b ++ (s.buzzer_bucket ++ [b])).Perm
        (b :: s.the_queue.erase b ++ s.buzzer_bucket) := by
      rw [← List.append_assoc]
      exact List.perm_append_singleton b _
    exact h1.trans (List.Perm.append_right _ (List.perm_cons_erase hb).symm)
  · rw [kick_out_absent s b hb]; exact h

theorem inv_take_bribe (s : State) (b : Int) (h : Inv s) : Inv (take_bribe s b).2 := by
  by_cases hb : b ∈ s.the_queue
  · rw [take_bribe_present s b hb]
    simp only [Inv, List.length_cons] at h ⊢
    have hl : (s.the_queue.erase b).length + 1 = s.the_queue.length := by
      rw [List.length_erase_of_mem hb]
      have := List.length_pos_of_mem hb
      omega
    rw [hl]
    exact (List.Perm.append_right _ (List.perm_cons_erase hb).symm).trans h
  · rw [take_bribe_absent s b hb]; exact h

theorem inv_step (s : State) (op : Op) (h : Inv s)
    (hb : total (step s op) ≤ 2147483648) : Inv (step s op) := by
  cases op with
  | give_buzzer => exact inv_give_buzzer s h hb
  | seat => exact inv_seat s h
  | kick_out b => exact inv_kick_out s b h
  | take_bribe b => exact inv_take_bribe s b h
  | length => exact h
  | snapshot => exact h

theorem total_step (s : State) (op : Op) :
    total (step s op) = total s ∨
    (total (step s op) = total s + 1 ∧ (step s op).the_queue.length = total s + 1) := by
  obtain ⟨q, p⟩ := s
  cases op with
  | give_buzzer =>
    rcases List.eq_nil_or_concat p with rfl | ⟨rest, x, rfl⟩
    · right
      simp [step, give_buzzer_new, total]
    · left
      rw [List.concat_eq_append]
      simp only [step, give_buzzer_reuse, total, List.length_append, List.length_singleton]
      omega
  | seat =>
    left
    cases q with
    | nil => simp [step, seat_empty]
    | cons x rest =>
      simp only [step, seat_front, total, List.length_append, List.length_cons,
        List.length_nil]
      omega
  | kick_out b =>
    left
    by_cases hb : b ∈ q
    · have := List.length_pos_of_mem hb
      simp only [step, kick_out_present ⟨q, p⟩ b hb, total, List.length_append,
        List.length_singleton, List.length_erase_of_mem hb]
      omega
    · simp [step, kick_out_absent ⟨q, p⟩ b hb]
  | take_bribe b =>
    left
    by_cases hb : b ∈ q
    · have := List.length_pos_of_mem hb
      simp only [step, take_bribe_present ⟨q, p⟩ b hb, total, List.length_cons,
        List.length_erase_of_mem hb]
      omega
    · simp [step, take_bribe_absent ⟨q, p⟩ b hb]
  | length => left; rfl
  | snapshot => left; rfl

theorem total_le_run (ops : List Op) : ∀ s : State, total s ≤ total (run s ops) := by
  induction ops with
  | nil => intro s; exact Nat.le_refl _
  | cons op ops ih =>
    intro s
    have h1 := ih (step s op)
    have hrun : run s (op :: ops) = run (step s op) ops := rfl
    rw [hrun]
    rcases total_step s op with h | ⟨h, _⟩ <;> omega

/-- While the two vectors together hold at most 2147483648 buzzers at the end of
a run, they hold every buzzer `0 .. M-1` exactly once. -/
theorem inv_run (ops : List Op) :
    ∀ s : State, Inv s → total (run s ops) ≤ 2147483648 → Inv (run s ops) := by
  induction ops with
  | nil => intro s h _; exact h
  | cons op ops ih =>
    intro s h hb
    have hrun : run s (op :: ops) = run (step s op) ops := rfl
    rw [hrun] at hb ⊢
    have hle := total_le_run ops (step s op)
    exact ih (step s op) (inv_step s op h (by omega)) hb

/-! ## Long runs of `give_buzzer()` from the default-constructed object -/

theorem int_of_size_zero : int_of_size 0 = 0 := by decide

theorem int_of_size_one : int_of_size 1 = 1 := by decide

theorem int_of_size_limit : int_of_size 2147483648 = -2147483648 := by decide

theorem int_of_size_wrap : int_of_size 4294967296 = 0 := by decide

theorem give_buzzers_new (k : Nat) :
    ∀ q : List Int, give_buzzers k ⟨q, []⟩
      = ((List.range' q.length k).map int_of_size,
          ⟨q ++ (List.range' q.length k).map int_of_size, []⟩) := by
  induction k with
  | zero => intro q; simp [give_buzzers]
  | succ k ih =>
    intro q
    simp only [give_buzzers, give_buzzer_new, ih]
    simp [List.range'_succ]

theorem run_replicate_give (k : Nat) :
    ∀ s : State, run s (List.replicate k Op.give_buzzer) = (give_buzzers k s).2 := by
  induction k with
  | zero => intro s; rfl
  | succ k ih =>
    intro s
    rw [List.replicate_succ]
    show run (step s Op.give_buzzer) (List.replicate k Op.give_buzzer) = _
    rw [ih]
    rfl

theorem returned_replicate_give (k : Nat) :
    ∀ s : State, returned s (List.replicate k Op.give_buzzer) = (give_buzzers k s).1 := by
  induction k with
  | zero => intro s; rfl
  | succ k ih =>
    intro s
    rw [List.replicate_succ]
    show given s Op.give_buzzer ++ returned (step s Op.give_buzzer)
      (List.replicate k Op.give_buzzer) = _
    rw [ih]
    rfl

theorem peak_replicate_give (k : Nat) :
    ∀ s : State, peak s (List.replicate k Op.give_buzzer) = s.the_queue.length + k := by
  induction k with
  | zero => intro s; rfl
  | succ k ih =>
    intro s
    rw [List.replicate_succ]
    show max s.the_queue.length (peak (step s Op.give_buzzer)
      (List.replicate k Op.give_buzzer)) = _
    rw [ih]
    have : (step s Op.give_buzzer).the_queue.length = s.the_queue.length + 1 := by
      show (give_buzzer s).2.the_queue.length = _
      rw [give_buzzer_queue, List.length_append, List.length_singleton]
    omega

theorem give_buzzers_init (n : Nat) :
    give_buzzers n init = (handed n, ⟨handed n, []⟩) := by
  have h := give_buzzers_new n []
  rw [List.length_nil, List.nil_append, ← List.range_eq_range'] at h
  exact h

theorem run_init_gives (n : Nat) :
    run init (List.replicate n Op.give_buzzer) = ⟨handed n, []⟩ := by
  rw [run_replicate_give, give_buzzers_init]

theorem handed_succ (n : Nat) : handed (n + 1) = handed n ++ [int_of_size n] := by
  unfold handed
  rw [List.range_succ, List.map_append, List.map_singleton]

theorem handed_cons (n : Nat) :
    handed (n + 1) = 0 :: (List.range' 1 n).map int_of_size := by
  unfold handed
  rw [List.range_eq_range', List.range'_succ, List.map_cons, int_of_size_zero]

theorem handed_length (n : Nat) : (handed n).length = n := by
  unfold handed
  rw [List.length_map, List.length_range]

theorem mem_handed (n k : Nat) (h : k < n) : int_of_size k ∈ handed n :=
  List.mem_map.mpr ⟨k, List.mem_range.mpr h, rfl⟩

theorem handed_getElem (n k : Nat) (h : k < n) :
    (handed n)[k]? = some (int_of_size k) := by
  unfold handed
  rw [List.getElem?_map, List.getElem?_range h]
  rfl

theorem handed_cons_cons (n : Nat) :
    handed (n + 2) = 0 :: 1 :: (List.range' 2 n).map int_of_size := by
  rw [handed_cons, List.range'_succ, List.map_cons, int_of_size_one]

theorem run_append (s : State) (a b : List Op) : run s (a ++ b) = run (run s a) b := by
  unfold run
  rw [List.foldl_append]

theorem snapshot_fst (s : State) (buzzers : List Int) :
    (snapshot s buzzers).1 = s.the_queue := rfl

theorem length_fst (s : State) : (length s).1 = int_of_size s.the_queue.length := rfl

theorem queue_after_gives (n : Nat) :
    (run init (List.replicate n Op.give_buzzer)).the_queue = handed n := by
  rw [run_init_gives]

theorem bucket_after_gives (n : Nat) :
    (run init (List.replicate n Op.give_buzzer)).buzzer_bucket = [] := by
  rw [run_init_gives]

theorem give_after_gives (n : Nat) :
    give_buzzer (run init (List.replicate n Op.give_buzzer))
      = (int_of_size n, ⟨handed n ++ [int_of_size n], []⟩) := by
  rw [run_init_gives, give_buzzer_new, handed_length]

/-- When the sizes `k < j` convert to the same `int`, the queue built by `j + 1`
calls ends in a buzzer that it already holds further to the front. -/
theorem handed_repeat (m j k : Nat) (t : Int) (hm : m = j + 1) (hk : k < j)
    (hx : int_of_size k = t) (hy : int_of_size j = t) :
    handed m = handed j ++ [t] ∧ t ∈ handed j := by
  subst hm
  rw [handed_succ, hy]
  exact ⟨rfl, hx ▸ mem_handed j k hk⟩

theorem handed_repeat_erase (m j k : Nat) (t : Int) (hm : m = j + 1) (hk : k < j)
    (hx : int_of_size k = t) (hy : int_of_size j = t) :
    t ∈ handed m ∧ t ∈ (handed m).erase t := by
  obtain ⟨h1, h2⟩ := handed_repeat m j k t hm hk hx hy
  rw [h1, List.erase_append_left _ h2]
  exact ⟨List.mem_append_left _ h2, List.mem_append_right _ (List.mem_singleton.mpr rfl)⟩

theorem handed_repeat_not_nodup (m j k : Nat) (t : Int) (hm : m = j + 1) (hk : k < j)
    (hx : int_of_size k = t) (hy : int_of_size j = t) :
    ¬ (handed m).Nodup := by
  obtain ⟨h1, h2⟩ := handed_repeat m j k t hm hk hx hy
  rw [h1]
  intro h
  exact (List.nodup_append.mp h).2.2 h2 (List.mem_singleton.mpr rfl)

/-! ## What a long run of `give_buzzer()` leads to, for any number of calls -/

theorem give_after_gives_eq (n : Nat) (x : Int) (hx : int_of_size n = x) :
    (run init (List.replicate n Op.give_buzzer)).buzzer_bucket = [] ∧
    (run init (List.replicate n Op.give_buzzer)).the_queue.length = n ∧
    give_buzzer (run init (List.replicate n Op.give_buzzer))
      = (x, ⟨(run init (List.replicate n Op.give_buzzer)).the_queue ++ [x], []⟩) := by
  refine ⟨bucket_after_gives n, ?_, ?_⟩
  · rw [queue_after_gives, handed_length]
  · rw [give_after_gives, queue_after_gives, hx]

theorem closure_fails_of (m k : Nat) (x : Int) (hk : k < m) (hx : int_of_size k = x)
    (hneg : x < 0) (hl : int_of_size m < 0) :
    (run init (List.replicate m Op.give_buzzer)).buzzer_bucket = [] ∧
    ¬ (snapshot (run init (List.replicate m Op.give_buzzer)) []).1.Perm
        (issued (run init (List.replicate m Op.give_buzzer)).the_queue.length) ∧
    (length (run init (List.replicate m Op.give_buzzer))).1 < 0 := by
  refine ⟨bucket_after_gives m, ?_, ?_⟩
  · rw [snapshot_fst, queue_after_gives]
    intro hperm
    have hm : x ∈ issued (handed m).length := hperm.subset (hx ▸ mem_handed m k hk)
    have := ((mem_issued _ _).mp hm).1
    omega
  · rw [length_fst, queue_after_gives, handed_length]
    exact hl

theorem duplicate_of (m j k : Nat) (t : Int) (hm : m = j + 1) (hk : k < j)
    (hx : int_of_size k = t) (hy : int_of_size j = t) :
    ¬ (snapshot (run init (List.replicate m Op.give_buzzer)) []).1.Nodup := by
  rw [snapshot_fst, queue_after_gives]
  exact handed_repeat_not_nodup m j k t hm hk hx hy

theorem negative_buzzer_of (n : Nat) (x : Int) (hx : int_of_size n = x) (hneg : x < 0) :
    (give_buzzer (run init (List.replicate n Op.give_buzzer))).1 < 0 := by
  rw [give_after_gives, hx]
  exact hneg

theorem kick_out_duplicate_of (m j k : Nat) (t : Int) (hm : m = j + 1) (hk : k < j)
    (hx : int_of_size k = t) (hy : int_of_size j = t) :
    t ∈ (run init (List.replicate m Op.give_buzzer)).the_queue ∧
    (kick_out (run init (List.replicate m Op.give_buzzer)) t).1 = true ∧
    t ∈ (kick_out (run init (List.replicate m Op.give_buzzer)) t).2.the_queue := by
  obtain ⟨h1, h2⟩ := handed_repeat_erase m j k t hm hk hx hy
  have hq := queue_after_gives m
  have hmem : t ∈ (run init (List.replicate m Op.give_buzzer)).the_queue := by
    rw [hq]; exact h1
  rw [kick_out_present _ t hmem]
  refine ⟨hmem, rfl, ?_⟩
  show t ∈ (run init (List.replicate m Op.give_buzzer)).the_queue.erase t
  rw [hq]
  exact h2

theorem give_buzzers_at_of (m k : Nat) (x : Int) (hk : k < m) (hx : int_of_size k = x) :
    (give_buzzers m init).1[k]? = some x := by
  rw [give_buzzers_init, ← hx]
  exact handed_getElem m k hk

theorem round_trip_fails_of (n : Nat) (hn : 2 ≤ n) (hy : int_of_size n = 0) :
    (give_buzzer (run init (List.replicate n Op.give_buzzer))).1 = 0 ∧
    (snapshot (kick_out (give_buzzer (run init (List.replicate n Op.give_buzzer))).2
      (give_buzzer (run init (List.replicate n Op.give_buzzer))).1).2 []).1
      ≠ (run init (List.replicate n Op.give_buzzer)).the_queue := by
  obtain ⟨d, rfl⟩ : ∃ d, n = d + 2 := ⟨n - 2, by omega⟩
  rw [give_after_gives, queue_after_gives, hy, handed_cons_cons]
  refine ⟨rfl, ?_⟩
  have hmem : (0 : Int) ∈ (State.mk
      (0 :: 1 :: (List.range' 2 d).map int_of_size ++ [0]) []).the_queue := by
    simp
  rw [snapshot_fst, kick_out_present _ 0 hmem]
  show (0 :: 1 :: (List.range' 2 d).map int_of_size ++ [0]).erase 0 ≠ _
  rw [List.cons_append, List.erase_cons_head]
  intro heq
  have := List.head_eq_of_cons_eq heq
  omega

theorem negative_in_queue_of (m k : Nat) (x : Int) (hk : k < m) (hx : int_of_size k = x) :
    x ∈ (run init (List.replicate m Op.give_buzzer)).the_queue ∧
    (run init (List.replicate m Op.give_buzzer)).the_queue.length
      + (run init (List.replicate m Op.give_buzzer)).buzzer_bucket.length = m := by
  rw [queue_after_gives, bucket_after_gives, handed_length]
  exact ⟨hx ▸ mem_handed m k hk, rfl⟩

theorem not_queue_length_of (n : Nat) (x : Int) (hx : int_of_size n = x)
    (hne : x ≠ (n : Int)) :
    (run init (List.replicate n Op.give_buzzer)).buzzer_bucket = [] ∧
    (give_buzzer (run init (List.replicate n Op.give_buzzer))).1
      ≠ ((run init (List.replicate n Op.give_buzzer)).the_queue.length : Int) := by
  refine ⟨bucket_after_gives n, ?_⟩
  rw [give_after_gives, queue_after_gives, handed_length, hx]
  exact hne

theorem seat_negative_of (m k : Nat) (x : Int) (hk : k < m) (hx : int_of_size k = x)
    (hneg : x < 0) :
    (run init (List.replicate m Op.give_buzzer ++ [Op.take_bribe x])).the_queue ≠ [] ∧
    (seat (run init (List.replicate m Op.give_buzzer ++ [Op.take_bribe x]))).1 < 0 := by
  have hmem : x ∈ (run init (List.replicate m Op.give_buzzer)).the_queue := by
    rw [queue_after_gives]; exact hx ▸ mem_handed m k hk
  have hrun : run init (List.replicate m Op.give_buzzer ++ [Op.take_bribe x])
      = (take_bribe (run init (List.replicate m Op.give_buzzer)) x).2 := by
    rw [run_append]; rfl
  rw [hrun, take_bribe_present _ x hmem, seat_front]
  exact ⟨List.cons_ne_nil _ _, hneg⟩

theorem lifecycle_fails_of (m j : Nat) (hm : m = j + 1) (hj : 0 < j)
    (hy : int_of_size j = 0) :
    ((0 : Int) ∈ (step (run init (List.replicate m Op.give_buzzer)) Op.seat).buzzer_bucket ∧
      (0 : Int) ∉ (run init (List.replicate m Op.give_buzzer)).buzzer_bucket) ∧
    ¬ ((0 : Int) ∈ (run init (List.replicate m Op.give_buzzer)).the_queue ∧
      (0 : Int) ∉ (step (run init (List.replicate m Op.give_buzzer)) Op.seat).the_queue) := by
  obtain ⟨d, rfl⟩ : ∃ d, j = d + 1 := ⟨j - 1, by omega⟩
  subst hm
  have hs : run init (List.replicate (d + 1 + 1) Op.give_buzzer)
      = ⟨0 :: ((List.range' 1 d).map int_of_size ++ [0]), []⟩ := by
    rw [run_init_gives, handed_succ, hy, handed_cons]
    rfl
  rw [hs]
  simp only [step, seat_front]
  refine ⟨⟨by simp, by simp⟩, ?_⟩
  intro h
  exact h.2 (List.mem_append_right _ (List.mem_singleton.mpr rfl))

theorem distinct_below_peak_of (m j k : Nat) (t : Int) (hm : m = j + 1) (hk : k < j)
    (hx : int_of_size k = t) (hy : int_of_size j = t) :
    (returned init (List.replicate m Op.give_buzzer)).dedup.length
      < peak init (List.replicate m Op.give_buzzer) ∧
    (run init (List.replicate m Op.give_buzzer)).the_queue.length
      + (run init (List.replicate m Op.give_buzzer)).buzzer_bucket.length
      = peak init (List.replicate m Op.give_buzzer) := by
  have hnd := handed_repeat_not_nodup m j k t hm hk hx hy
  rw [returned_replicate_give, give_buzzers_init, peak_replicate_give, queue_after_gives,
    bucket_after_gives, handed_length]
  refine ⟨?_, by simp [init]⟩
  have hsub := List.dedup_sublist (handed m)
  have hle := hsub.length_le
  have hne : (handed m).dedup.length ≠ (handed m).length := by
    intro he
    exact hnd (List.dedup_eq_self.mp (hsub.eq_of_length he))
  rw [handed_length] at hle hne
  simp only [init, List.length_nil, Nat.zero_add]
  omega

/-! ## Runs past the range of `int` -/

/-- C1 at its failing input: after 2147483648 calls of `give_buzzer()` on the
default-constructed object the bucket is empty and the queue has 2147483648
entries; the next `give_buzzer()` returns and appends `-2147483648`, not the
queue length. -/
theorem give_buzzer_at_int_limit :
    (run init (List.replicate 2147483648 Op.give_buzzer)).buzzer_bucket = [] ∧
    (run init (List.replicate 2147483648 Op.give_buzzer)).the_queue.length = 2147483648 ∧
    give_buzzer (run init (List.replicate 2147483648 Op.give_buzzer))
      = (-2147483648,
          ⟨(run init (List.replicate 2147483648 Op.give_buzzer)).the_queue ++ [-2147483648],
            []⟩) :=
  give_after_gives_eq 2147483648 (-2147483648) int_of_size_limit

/-- C3 at its failing input: after 2147483649 calls of `give_buzzer()` on the
default-constructed object the bucket is empty, the snapshot is not a
permutation of `0, 1, ..., N-1` for the number `N` of its entries (it holds
`-2147483648`), and `length()` returns a negative value. -/
theorem closure_fails_past_int_limit :
    (run init (List.replicate 2147483649 Op.give_buzzer)).buzzer_bucket = [] ∧
    ¬ (snapshot (run init (List.replicate 2147483649 Op.give_buzzer)) []).1.Perm
        (issued (run init (List.replicate 2147483649 Op.give_buzzer)).the_queue.length) ∧
    (length (run init (List.replicate 2147483649 Op.give_buzzer))).1 < 0 :=
  closure_fails_of 2147483649 2147483648 (-2147483648) (by decide) int_of_size_limit
    (by decide) (by decide)

/-- C4 at its failing input: after 4294967297 calls of `give_buzzer()` on the
default-constructed object the snapshot holds a buzzer twice (buzzer 0, handed
out by the first call and by the last). -/
theorem duplicate_after_wrap :
    ¬ (snapshot (run init (List.replicate 4294967297 Op.give_buzzer)) []).1.Nodup :=
  duplicate_of 4294967297 4294967296 0 0 (by decide) (by decide) int_of_size_zero
    int_of_size_wrap

/-- C5 at its failing input: in the state reached by 2147483648 calls of
`give_buzzer()` on the default-constructed object, `give_buzzer()` returns a
negative buzzer. -/
theorem negative_buzzer_at_int_limit :
    (give_buzzer (run init (List.replicate 2147483648 Op.give_buzzer))).1 < 0 :=
  negative_buzzer_of 2147483648 (-2147483648) int_of_size_limit (by decide)

/-- C8 at its failing input: in the state reached by 4294967297 calls of
`give_buzzer()` on the default-constructed object, buzzer 0 is in the queue,
`kick_out(0)` returns true, and buzzer 0 is still in the queue afterwards. -/
theorem kick_out_leaves_duplicate :
    (0 : Int) ∈ (run init (List.replicate 4294967297 Op.give_buzzer)).the_queue ∧
    (kick_out (run init (List.replicate 4294967297 Op.give_buzzer)) 0).1 = true ∧
    (0 : Int) ∈
      (kick_out (run init (List.replicate 4294967297 Op.give_buzzer)) 0).2.the_queue :=
  kick_out_duplicate_of 4294967297 4294967296 0 0 (by decide) (by decide) int_of_size_zero
    int_of_size_wrap

/-- C12 at its failing input: of 2147483649 consecutive `give_buzzer()` calls on
the default-constructed object, call number 2147483648 (counting from 0) returns
`-2147483648`, not 2147483648. -/
theorem give_buzzers_past_int_limit :
    (give_buzzers 2147483649 init).1[2147483648]? = some (-2147483648) :=
  give_buzzers_at_of 2147483649 2147483648 (-2147483648) (by decide) int_of_size_limit

/-- C13 at its failing input: in the state reached by 4294967296 calls of
`give_buzzer()` on the default-constructed object, `give_buzzer()` returns 0,
which is the front entry of the queue, and after `kick_out(0)` the snapshot is
not the queue from before the `give_buzzer()`. -/
theorem round_trip_fails_at_wrap :
    (give_buzzer (run init (List.replicate 4294967296 Op.give_buzzer))).1 = 0 ∧
    (snapshot (kick_out (give_buzzer (run init (List.replicate 4294967296 Op.give_buzzer))).2
      (give_buzzer (run init (List.replicate 4294967296 Op.give_buzzer))).1).2 []).1
      ≠ (run init (List.replicate 4294967296 Op.give_buzzer)).the_queue :=
  round_trip_fails_of 4294967296 (by decide) int_of_size_wrap

/-- C14 at its failing input: after 2147483649 calls of `give_buzzer()` on the
default-constructed object the queue holds `-2147483648`, which is not one of
`0, 1, ..., M-1` for the sum `M = 2147483649` of the two sizes. -/
theorem negative_buzzer_in_queue :
    (-2147483648 : Int) ∈ (run init (List.replicate 2147483649 Op.give_buzzer)).the_queue ∧
    (run init (List.replicate 2147483649 Op.give_buzzer)).the_queue.length
      + (run init (List.replicate 2147483649 Op.give_buzzer)).buzzer_bucket.length
      = 2147483649 :=
  negative_in_queue_of 2147483649 2147483648 (-2147483648) (by decide) int_of_size_limit

/-- C15 at its failing input: in the state reached by 2147483648 calls of
`give_buzzer()` on the default-constructed object the bucket is empty and
`give_buzzer()` returns a value that is not the queue length. -/
theorem not_queue_length_at_int_limit :
    (run init (List.replicate 2147483648 Op.give_buzzer)).buzzer_bucket = [] ∧
    (give_buzzer (run init (List.replicate 2147483648 Op.give_buzzer))).1
      ≠ ((run init (List.replicate 2147483648 Op.give_buzzer)).the_queue.length : Int) :=
  not_queue_length_of 2147483648 (-2147483648) int_of_size_limit (by decide)

/-- C16 at its failing input: after 2147483649 calls of `give_buzzer()` on the
default-constructed object and a `take_bribe(-2147483648)`, the queue is not
empty and `seat()` returns a negative value. -/
theorem seat_negative_on_non_empty_queue :
    (run init (List.replicate 2147483649 Op.give_buzzer
      ++ [Op.take_bribe (-2147483648)])).the_queue ≠ [] ∧
    (seat (run init (List.replicate 2147483649 Op.give_buzzer
      ++ [Op.take_bribe (-2147483648)]))).1 < 0 :=
  seat_negative_of 2147483649 2147483648 (-2147483648) (by decide) int_of_size_limit
    (by decide)

/-- C17 at its failing input: in the state reached by 4294967297 calls of
`give_buzzer()` on the default-constructed object, `seat()` puts buzzer 0 in the
bucket, where it was not before, while buzzer 0 is still in the queue after the
call. -/
theorem lifecycle_fails_after_wrap :
    ((0 : Int) ∈
        (step (run init (List.replicate 4294967297 Op.give_buzzer)) Op.seat).buzzer_bucket ∧
      (0 : Int) ∉ (run init (List.replicate 4294967297 Op.give_buzzer)).buzzer_bucket) ∧
    ¬ ((0 : Int) ∈ (run init (List.replicate 4294967297 Op.give_buzzer)).the_queue ∧
      (0 : Int) ∉
        (step (run init (List.replicate 4294967297 Op.give_buzzer)) Op.seat).the_queue) :=
  lifecycle_fails_of 4294967297 4294967296 (by decide) (by decide) int_of_size_wrap

/-- C19 at its failing input: over a run of 4294967297 calls of `give_buzzer()`
on the default-constructed object, the number of distinct buzzers returned is
smaller than the peak queue length, which is the sum of the two sizes at the
end. -/
theorem distinct_buzzers_below_peak :
    (returned init (List.replicate 4294967297 Op.give_buzzer)).dedup.length
      < peak init (List.replicate 4294967297 Op.give_buzzer) ∧
    (run init (List.replicate 4294967297 Op.give_buzzer)).the_queue.length
      + (run init (List.replicate 4294967297 Op.give_buzzer)).buzzer_bucket.length
      = peak init (List.replicate 4294967297 Op.give_buzzer) :=
  distinct_below_peak_of 4294967297 4294967296 0 0 (by decide) (by decide)
    int_of_size_zero int_of_size_wrap

end ServiceQueue
